import Mathlib

/-!
Shallow embedding of the vemoo vector-quantization core
(src/pkg/vectorspace/product.go, src/pkg/vectorspace/binary.go and the
storage interface).  Go float32 values are modelled as rationals, ids and
indices as naturals, nil slices as `none` where the source distinguishes
nil from a length check.  Packages referenced by the source but absent
from src/ (pkg/distance, pkg/kmeans, pkg/cache, pkg/models,
pkg/conversion) are modelled from the spec where a claim needs them; each
such definition is marked in its doc comment.
-/

namespace Vemoo

/-- The math.MaxFloat32 sentinel used by the source, (2 - 2^-23) * 2^127. -/
def maxFloat32 : ℚ := (2 ^ 24 - 1) * 2 ^ 104

/-- Modelled from the spec: the Euclidean float kernel of the distance
package (pkg/distance is not under src/).  The spec allows squared or true
Euclidean, fixed per deployment; squared Euclidean over the zipped
coordinates is used here. -/
def euclideanDist (a b : List ℚ) : ℚ :=
  (List.zipWith (fun x y => (x - y) * (x - y)) a b).sum

/-- Modelled from the spec: the dot-product float kernel of the distance
package (pkg/distance is not under src/); the raw kernel value is
reported, callers handle the sign convention. -/
def dotDist (a b : List ℚ) : ℚ :=
  (List.zipWith (fun x y => x * y) a b).sum

/-- Modelled from the spec: distance.GetFloatDistanceFn for the two names
the product quantizer can reach after validation and cosine substitution
(euclidean or dot). -/
def getFloatDistanceFn (name : String) : List ℚ → List ℚ → ℚ :=
  if name = "dot" then dotDist else euclideanDist

/-- productQuantizedPoint (product.go). -/
structure PQPoint where
  id : ℕ
  vector : List ℚ
  centroidIds : List ℕ
  isDirty : Bool

/-- binaryQuantizedPoint (binary.go); `binaryVector = none` models a Go
nil slice (as produced by encode before a threshold is set). -/
structure BQPoint where
  id : ℕ
  vector : List ℚ
  binaryVector : Option (List ℕ)
  isDirty : Bool

/-- The concrete point variants behind the VectorStorePoint interface
that appear under src/.  A Go type assertion to *productQuantizedPoint
succeeds exactly on the `pq` constructor. -/
inductive VectorStorePoint where
  | pq (p : PQPoint)
  | bq (p : BQPoint)

/-- models.ProductQuantizerParameters (named in product.go; the models
package is not under src/, fields as used by the source). -/
structure PQParams where
  numSubVectors : ℕ
  numCentroids : ℕ
  triggerThreshold : ℕ

/-- productQuantizer (product.go).  The item cache is modelled separately
as the list of points handed to `fit`. -/
structure ProductQuantizer where
  params : PQParams
  distFn : List ℚ → List ℚ → ℚ
  originalVectorLen : ℕ
  subVectorLen : ℕ
  distFnName : String
  flatCentroids : List ℚ
  centroidDists : List ℚ

/-- productQuantizer.centroidDistIdx (product.go lines 76-78). -/
def ProductQuantizer.centroidDistIdx (pq : ProductQuantizer) (sub cx cy : ℕ) : ℕ :=
  sub * pq.params.numCentroids * pq.params.numCentroids + cx * pq.params.numCentroids + cy

/-- The start offset computed by productQuantizer.flatCentroidSlice
(product.go lines 80-84). -/
def ProductQuantizer.flatCentroidStart (pq : ProductQuantizer) (sub c : ℕ) : ℕ :=
  sub * pq.params.numCentroids * pq.subVectorLen + c * pq.subVectorLen

/-- The slice flatCentroids[start:end] of length subVectorLen selected by
flatCentroidSlice. -/
def ProductQuantizer.centroidAt (pq : ProductQuantizer) (sub c : ℕ) : List ℚ :=
  (pq.flatCentroids.drop (pq.flatCentroidStart sub c)).take pq.subVectorLen

/-- The subvector slice vector[i*subLen : (i+1)*subLen]. -/
def subVecAt (v : List ℚ) (subLen i : ℕ) : List ℚ :=
  (v.drop (i * subLen)).take subLen

/-- The inner loop of productQuantizer.encode: the running pair
(closestCentroidDistance, closestCentroidId) over the k centroids,
starting from the math.MaxFloat32 sentinel and id 0, updated on strict
improvement. -/
def pqArgmin (d : ℕ → ℚ) (k : ℕ) : ℚ × ℕ :=
  (List.range k).foldl (fun acc j => if d j < acc.1 then (d j, j) else acc) (maxFloat32, 0)

/-- productQuantizer.encode (product.go lines 122-145); the final uint8
conversion of closestCentroidId is the mod-256 reduction. -/
def ProductQuantizer.encode (pq : ProductQuantizer) (vector : List ℚ) : List ℕ :=
  if pq.flatCentroids = [] then []
  else
    (List.range pq.params.numSubVectors).map (fun i =>
      (pqArgmin
        (fun j => pq.distFn (subVecAt vector pq.subVectorLen i) (pq.centroidAt i j))
        pq.params.numCentroids).2 % 256)

/-- The query-side lookup table built by DistanceFromFloat after fit
(product.go lines 238-246): the double loop stores
distFn(subvector i of x, centroid (i, j)) at flat index i*K + j, so
position idx holds the value for i = idx / K and j = idx % K. -/
def ProductQuantizer.distTable (pq : ProductQuantizer) (x : List ℚ) : List ℚ :=
  (List.range (pq.params.numSubVectors * pq.params.numCentroids)).map (fun idx =>
    pq.distFn (subVecAt x pq.subVectorLen (idx / pq.params.numCentroids))
      (pq.centroidAt (idx / pq.params.numCentroids) (idx % pq.params.numCentroids)))

/-- productQuantizer.DistanceFromFloat (product.go lines 224-260). -/
def ProductQuantizer.distanceFromFloat (pq : ProductQuantizer) (x : List ℚ) :
    VectorStorePoint → ℚ :=
  if pq.flatCentroids = [] then
    fun y =>
      match y with
      | .pq p => pq.distFn x p.vector
      | _ => maxFloat32
  else
    fun y =>
      match y with
      | .pq p =>
        (List.range pq.params.numSubVectors).foldl
          (fun dist i =>
            dist + (pq.distTable x).getD
              (i * pq.params.numCentroids + p.centroidIds.getD i 0) 0)
          0
      | _ => maxFloat32

/-- productQuantizer.DistanceFromPoint (product.go lines 262-288); the
closure checks both type assertions and falls back to MaxFloat32 when
either fails. -/
def ProductQuantizer.distanceFromPoint (pq : ProductQuantizer) (x : VectorStorePoint) :
    VectorStorePoint → ℚ :=
  if pq.flatCentroids = [] then
    fun y =>
      match x, y with
      | .pq px, .pq py => pq.distFn px.vector py.vector
      | _, _ => maxFloat32
  else
    fun y =>
      match x, y with
      | .pq px, .pq py =>
        (List.range pq.params.numSubVectors).foldl
          (fun dist i =>
            dist + pq.centroidDists.getD
              (pq.centroidDistIdx i (px.centroidIds.getD i 0) (py.centroidIds.getD i 0)) 0)
          0
      | _, _ => maxFloat32

/-- The error kinds named by the spec for constructor failures. -/
inductive QuantizerError where
  | invalidGeometry
  | unsupportedDistance
deriving DecidableEq

/-- newProductQuantizer (product.go lines 34-74).  The centroid tables
read back from storage are passed already decoded (a missing key maps to
[]).  GetFloatDistanceFn is called only after the name check, so its
error branch is unreachable and is not modelled. -/
def newProductQuantizer (distFnName : String) (params : PQParams) (vectorLen : ℕ)
    (storedCentroidDists storedFlatCentroids : List ℚ) :
    Except QuantizerError ProductQuantizer :=
  if vectorLen % params.numSubVectors ≠ 0 then .error .invalidGeometry
  else if distFnName ≠ "euclidean" ∧ distFnName ≠ "cosine" ∧ distFnName ≠ "dot" then
    .error .unsupportedDistance
  else
    let name := if distFnName = "cosine" then "euclidean" else distFnName
    if params.numCentroids > 256 then .error .invalidGeometry
    else
      .ok {
        params := params
        distFn := getFloatDistanceFn name
        distFnName := name
        originalVectorLen := vectorLen
        subVectorLen := vectorLen / params.numSubVectors
        flatCentroids := storedFlatCentroids
        centroidDists := storedCentroidDists }

/-- Modelled from the spec: the output of the k-means trainer for one
subvector (pkg/kmeans is not under src/): K centroids of length
subVectorLen and one label per input point, labels below K. -/
structure KMeansResult where
  centroids : ℕ → List ℚ
  labels : List ℕ

/-- productQuantizer.Fit (product.go lines 161-222), with the k-means
runs abstracted as an input: km i is the trainer result for subvector i.
The goroutine for subvector i writes labels into column i of every
point's code, copies its centroids into block i of flatCentroids (copy
leaves the zero fill in place past a short centroid, hence the getD with
default 0), and fills block i of centroidDists with
distFn(centroid j, centroid k) at flat index centroidDistIdx(i, j, k). -/
def ProductQuantizer.fit (pq : ProductQuantizer) (points : List PQPoint)
    (km : ℕ → KMeansResult) : ProductQuantizer × List PQPoint :=
  if pq.flatCentroids ≠ [] then (pq, points)
  else if points.length < pq.params.triggerThreshold then (pq, points)
  else
    let M := pq.params.numSubVectors
    let K := pq.params.numCentroids
    let pts := List.mapIdx (fun j p =>
      { p with
        centroidIds := (List.range M).map (fun i => (km i).labels.getD j 0)
        isDirty := true }) points
    let flat := (List.range (M * K * pq.subVectorLen)).map (fun idx =>
      ((km (idx / (K * pq.subVectorLen))).centroids ((idx / pq.subVectorLen) % K)).getD
        (idx % pq.subVectorLen) 0)
    let cdists := (List.range (M * K * K)).map (fun idx =>
      pq.distFn ((km (idx / (K * K))).centroids (idx / K % K))
        ((km (idx / (K * K))).centroids (idx % K)))
    ({ pq with flatCentroids := flat, centroidDists := cdists }, pts)

/-- binaryQuantizer (binary.go).  The item cache (pkg/cache, not under
src/) is modelled from the spec as the list of cached points; Count() is
its length and ForEach visits it in order. -/
structure BinaryQuantizer where
  threshold : Option (List ℚ)
  triggerThreshold : ℕ
  points : List BQPoint

/-- The body of the encoding loop of binaryQuantizer.encode: when
vector[i] exceeds the threshold, or bit i mod 64 into word i div 64. -/
def bqStep (vector t : List ℚ) (enc : List ℕ) (i : ℕ) : List ℕ :=
  if vector.getD i 0 > t.getD i 0 then
    enc.set (i / 64) ((enc.getD (i / 64) 0) ||| (1 <<< (i % 64)))
  else enc

/-- binaryQuantizer.encode (binary.go lines 111-137); none models the Go
nil slice returned when no threshold is set. -/
def bqEncode (threshold : Option (List ℚ)) (vector : List ℚ) : Option (List ℕ) :=
  match threshold with
  | none => none
  | some t =>
    let numWords := vector.length / 64 + (if vector.length % 64 = 0 then 0 else 1)
    some ((List.range vector.length).foldl (bqStep vector t)
      (List.replicate numWords 0))

/-- The per-dimension accumulation loop of binaryQuantizer.Fit:
sum[i] += v for each index i of the point's vector. -/
def addInto (s v : List ℚ) : List ℚ :=
  (List.range v.length).foldl (fun acc i => acc.set i (acc.getD i 0 + v.getD i 0)) s

/-- One step of the first pass of binaryQuantizer.Fit over a point: the
sum slice is allocated lazily (at the first point's vector length, all
zeros) and the point's vector is accumulated into it. -/
def bqSumStep (s : Option (List ℚ)) (p : BQPoint) : Option (List ℚ) :=
  some (addInto
    (match s with | none => List.replicate p.vector.length 0 | some l => l)
    p.vector)

/-- binaryQuantizer.Fit (binary.go lines 153-193): gate, first pass
accumulating the per-dimension sum, division by the point count, then
the re-encoding pass marking every point dirty. -/
def BinaryQuantizer.fit (bq : BinaryQuantizer) : BinaryQuantizer :=
  if bq.threshold ≠ none ∨ bq.points.length < bq.triggerThreshold then bq
  else
    let sum := bq.points.foldl bqSumStep none
    let count := bq.points.length
    let newThreshold := Option.map (fun l => l.map (fun x => x / (count : ℚ))) sum
    let pts := bq.points.map (fun p =>
      { p with binaryVector := bqEncode newThreshold p.vector, isDirty := true })
    { bq with threshold := newThreshold, points := pts }

/-- A value written to the key-value store. -/
inductive StorageVal where
  | floats (l : List ℚ)
  | words (l : List ℕ)
deriving DecidableEq

/-- conversion.NodeKey, modelled from the spec (pkg/conversion is not
under src/): a one-byte tag next to the 8-byte big-endian id; the key is
determined by the (tag, id) pair. -/
def nodeKey (id : ℕ) (tag : Char) : Char × ℕ := (tag, id)

/-- Length of a possibly-nil Go slice. -/
def optWords : Option (List ℕ) → List ℕ
  | none => []
  | some l => l

/-- binaryQuantizedPoint.WriteTo (binary.go lines 304-318), modelled as
the list of Put operations it performs, in order.  When the binary vector
is non-empty the function returns right after the single 'q' put. -/
def BQPoint.writeTo (p : BQPoint) : List ((Char × ℕ) × StorageVal) :=
  if (optWords p.binaryVector).length ≠ 0 then
    [(nodeKey p.id 'q', .words (optWords p.binaryVector))]
  else if p.vector.length ≠ 0 then
    [(nodeKey p.id 'v', .floats p.vector)]
  else []

/-- A fitted example quantizer: D = 2, M = 2, K = 2, one-dimensional
subvectors, Euclidean kernel; centroids (0,0) = [0], (0,1) = [10],
(1,0) = [5], (1,1) = [1]. -/
def pqFitted : ProductQuantizer :=
  { params := ⟨2, 2, 0⟩
    distFn := euclideanDist
    originalVectorLen := 2
    subVectorLen := 1
    distFnName := "euclidean"
    flatCentroids := [0, 10, 5, 1]
    centroidDists := [0, 100, 100, 0, 0, 16, 16, 0] }

/-- An unfitted example quantizer: D = 1, M = 1, K = 2, Euclidean kernel,
no centroid tables yet. -/
def pqUnfitted : ProductQuantizer :=
  { params := ⟨1, 2, 0⟩
    distFn := euclideanDist
    originalVectorLen := 1
    subVectorLen := 1
    distFnName := "euclidean"
    flatCentroids := []
    centroidDists := [] }

/-- A dot-configured example quantizer: D = 1, M = 1, K = 2, no centroid
tables yet. -/
def pqDot : ProductQuantizer :=
  { params := ⟨1, 2, 0⟩
    distFn := dotDist
    originalVectorLen := 1
    subVectorLen := 1
    distFnName := "dot"
    flatCentroids := []
    centroidDists := [] }

/-- A k-means stub whose two centroids have negative mutual dot
product. -/
def kmDot : ℕ → KMeansResult := fun _ => ⟨fun c => if c = 0 then [1] else [-1], [0]⟩

/-- A one-point binary quantizer with no threshold and trigger 0. -/
def bqSample : BinaryQuantizer := ⟨none, 0, [⟨1, [2], none, false⟩]⟩

/-- A constant k-means stub used to exercise fit at concrete inputs. -/
def kmSample : ℕ → KMeansResult := fun _ => ⟨fun _ => [0], [0]⟩

section Helpers

lemma getD_map_range {α : Type} (f : ℕ → α) {n i : ℕ} (h : i < n) (d : α) :
    ((List.range n).map f).getD i d = f i := by
  rw [List.getD_eq_getElem?_getD, List.getElem?_map, List.getElem?_range h]
  rfl

lemma foldl_add_eq_sum (f : ℕ → ℚ) : ∀ (l : List ℕ) (init : ℚ),
    l.foldl (fun d i => d + f i) init = init + (l.map f).sum
  | [], init => by simp
  | i :: l, init => by
    simp only [List.foldl_cons, List.map_cons, List.sum_cons, foldl_add_eq_sum f l]
    ring

lemma pair_div_mod {K : ℕ} (m c : ℕ) (hc : c < K) :
    (m * K + c) / K = m ∧ (m * K + c) % K = c := by
  have hK : 0 < K := lt_of_le_of_lt (Nat.zero_le c) hc
  constructor
  · rw [show m * K + c = c + K * m by ring, Nat.add_mul_div_left c m hK,
      Nat.div_eq_of_lt hc, Nat.zero_add]
  · rw [show m * K + c = c + K * m by ring, Nat.add_mul_mod_self_left,
      Nat.mod_eq_of_lt hc]

lemma pair_idx_lt {M K m c : ℕ} (hm : m < M) (hc : c < K) : m * K + c < M * K := by
  calc m * K + c < m * K + K := by omega
    _ = (m + 1) * K := by ring
    _ ≤ M * K := Nat.mul_le_mul_right K hm

lemma triple_div_mod {K : ℕ} (m a b : ℕ) (ha : a < K) (hb : b < K) :
    (m * K * K + a * K + b) / (K * K) = m ∧
    (m * K * K + a * K + b) / K % K = a ∧
    (m * K * K + a * K + b) % K = b := by
  have hK : 0 < K := lt_of_le_of_lt (Nat.zero_le a) ha
  have h1 : (m * K * K + a * K + b) / K = a + K * m := by
    rw [show m * K * K + a * K + b = b + K * (a + K * m) by ring,
      Nat.add_mul_div_left b (a + K * m) hK, Nat.div_eq_of_lt hb, Nat.zero_add]
  refine ⟨?_, ?_, ?_⟩
  · rw [← Nat.div_div_eq_div_mul, h1, Nat.add_mul_div_left a m hK,
      Nat.div_eq_of_lt ha, Nat.zero_add]
  · rw [h1, Nat.add_mul_mod_self_left, Nat.mod_eq_of_lt ha]
  · rw [show m * K * K + a * K + b = b + K * (a + K * m) by ring,
      Nat.add_mul_mod_self_left, Nat.mod_eq_of_lt hb]

lemma triple_idx_lt {M K m a b : ℕ} (hm : m < M) (ha : a < K) (hb : b < K) :
    m * K * K + a * K + b < M * K * K := by
  have h1 : a * K + b < K * K := by
    calc a * K + b < a * K + K := by omega
      _ = (a + 1) * K := by ring
      _ ≤ K * K := Nat.mul_le_mul_right K ha
  calc m * K * K + a * K + b = m * (K * K) + (a * K + b) := by ring
    _ < m * (K * K) + K * K := by omega
    _ = (m + 1) * (K * K) := by ring
    _ ≤ M * (K * K) := Nat.mul_le_mul_right (K * K) hm
    _ = M * K * K := by ring

lemma euclideanDist_nonneg : ∀ (a b : List ℚ), 0 ≤ euclideanDist a b
  | [], _ => by simp [euclideanDist]
  | _ :: _, [] => by simp [euclideanDist]
  | x :: a, y :: b => by
    have h := euclideanDist_nonneg a b
    have h2 : 0 ≤ (x - y) * (x - y) := mul_self_nonneg _
    simp only [euclideanDist, List.zipWith_cons_cons, List.sum_cons] at h ⊢
    linarith

lemma euclideanDist_comm : ∀ (a b : List ℚ), euclideanDist a b = euclideanDist b a
  | [], _ => by simp [euclideanDist]
  | _ :: _, [] => by simp [euclideanDist]
  | x :: a, y :: b => by
    have h := euclideanDist_comm a b
    simp only [euclideanDist, List.zipWith_cons_cons, List.sum_cons] at h ⊢
    rw [h]
    ring

lemma dotDist_comm : ∀ (a b : List ℚ), dotDist a b = dotDist b a
  | [], _ => by simp [dotDist]
  | _ :: _, [] => by simp [dotDist]
  | x :: a, y :: b => by
    have h := dotDist_comm a b
    simp only [dotDist, List.zipWith_cons_cons, List.sum_cons] at h ⊢
    rw [h]
    ring

lemma euclideanDist_self : ∀ (a : List ℚ), euclideanDist a a = 0
  | [] => by simp [euclideanDist]
  | x :: a => by
    have h := euclideanDist_self a
    simp only [euclideanDist, List.zipWith_cons_cons, List.sum_cons] at h ⊢
    rw [h]
    ring

lemma fit_centroidDists_getD (pq : ProductQuantizer) (points : List PQPoint)
    (km : ℕ → KMeansResult) (hpre : pq.flatCentroids = [])
    (htrig : pq.params.triggerThreshold ≤ points.length)
    {m a b : ℕ} (hm : m < pq.params.numSubVectors)
    (ha : a < pq.params.numCentroids) (hb : b < pq.params.numCentroids) :
    ((pq.fit points km).1.centroidDists).getD (pq.centroidDistIdx m a b) 0 =
      pq.distFn ((km m).centroids a) ((km m).centroids b) := by
  unfold ProductQuantizer.fit
  rw [if_neg (not_not_intro hpre), if_neg (Nat.not_lt.mpr htrig)]
  have hidx := triple_div_mod (K := pq.params.numCentroids) m a b ha hb
  unfold ProductQuantizer.centroidDistIdx
  rw [getD_map_range _ (triple_idx_lt hm ha hb)]
  rw [hidx.1, hidx.2.1, hidx.2.2]

lemma distTable_getD (pq : ProductQuantizer) (x : List ℚ)
    {m c : ℕ} (hm : m < pq.params.numSubVectors) (hc : c < pq.params.numCentroids) :
    (pq.distTable x).getD (m * pq.params.numCentroids + c) 0 =
      pq.distFn (subVecAt x pq.subVectorLen m) (pq.centroidAt m c) := by
  have hidx := pair_div_mod (K := pq.params.numCentroids) m c hc
  unfold ProductQuantizer.distTable
  rw [getD_map_range _ (pair_idx_lt hm hc)]
  rw [hidx.1, hidx.2]

lemma pqArgmin_spec (d : ℕ → ℚ) :
    ∀ k : ℕ, 0 < k → (∀ j, j < k → d j < maxFloat32) →
      (pqArgmin d k).2 < k ∧ (pqArgmin d k).1 = d (pqArgmin d k).2 ∧
      (∀ j, j < k → (pqArgmin d k).1 ≤ d j) ∧
      ∀ j, j < (pqArgmin d k).2 → (pqArgmin d k).1 < d j := by
  intro k
  induction k with
  | zero => intro h; exact absurd h (lt_irrefl 0)
  | succ n ih =>
    intro _ hbound
    by_cases hn : n = 0
    · subst hn
      have h0 : d 0 < maxFloat32 := hbound 0 (by omega)
      have hp : pqArgmin d (0 + 1) = (d 0, 0) := by
        unfold pqArgmin
        rw [List.range_succ, List.range_zero, List.nil_append]
        simp [h0]
      rw [hp]
      refine ⟨Nat.one_pos, rfl, ?_, ?_⟩
      · intro j hj
        have hj0 : j = 0 := by omega
        subst hj0
        exact le_refl _
      · intro j hj
        exact absurd hj (Nat.not_lt_zero j)
    · have hnpos : 0 < n := Nat.pos_of_ne_zero hn
      have ihh := ih hnpos (fun j hj => hbound j (by omega))
      have hstep : pqArgmin d (n + 1) =
          (if d n < (pqArgmin d n).1 then (d n, n) else pqArgmin d n) := by
        unfold pqArgmin
        rw [List.range_succ, List.foldl_append]
        rfl
      obtain ⟨h1, h2, h3, h4⟩ := ihh
      rw [hstep]
      by_cases hc : d n < (pqArgmin d n).1
      · rw [if_pos hc]
        refine ⟨by omega, rfl, ?_, ?_⟩
        · intro j hj
          rcases Nat.lt_succ_iff_lt_or_eq.mp hj with hj' | hj'
          · exact le_of_lt (lt_of_lt_of_le hc (h3 j hj'))
          · subst hj'
            exact le_refl _
        · intro j hj
          exact lt_of_lt_of_le hc (h3 j hj)
      · rw [if_neg hc]
        refine ⟨by omega, h2, ?_, h4⟩
        intro j hj
        rcases Nat.lt_succ_iff_lt_or_eq.mp hj with hj' | hj'
        · exact h3 j hj'
        · subst hj'
          exact not_lt.mp hc

lemma getD_replicate_self {α : Type} (a : α) (n j : ℕ) :
    (List.replicate n a).getD j a = a := by
  rw [List.getD_eq_getElem?_getD, List.getElem?_replicate]
  split <;> rfl

lemma exists_lt_succ_iff {P : ℕ → Prop} (n : ℕ) :
    (∃ i, i < n + 1 ∧ P i) ↔ (∃ i, i < n ∧ P i) ∨ P n := by
  constructor
  · rintro ⟨i, hi, hp⟩
    rcases Nat.lt_succ_iff_lt_or_eq.mp hi with h | h
    · exact Or.inl ⟨i, h, hp⟩
    · subst h
      exact Or.inr hp
  · rintro (⟨i, hi, hp⟩ | hp)
    · exact ⟨i, by omega, hp⟩
    · exact ⟨n, by omega, hp⟩

lemma bq_fold_length (v t : List ℚ) : ∀ (l : List ℕ) (acc : List ℕ),
    (l.foldl (bqStep v t) acc).length = acc.length := by
  intro l
  induction l with
  | nil => intro acc; rfl
  | cons i l ih =>
    intro acc
    rw [List.foldl_cons, ih]
    unfold bqStep
    split
    · exact List.length_set acc _ _
    · rfl

lemma bq_fold_testBit (v t : List ℚ) :
    ∀ (n : ℕ) (acc : List ℕ), (∀ i, i < n → i / 64 < acc.length) →
      ∀ wd bit,
        ((((List.range n).foldl (bqStep v t) acc).getD wd 0).testBit bit = true ↔
          ((acc.getD wd 0).testBit bit = true ∨
            ∃ i, i < n ∧ i / 64 = wd ∧ i % 64 = bit ∧ v.getD i 0 > t.getD i 0)) := by
  intro n
  induction n with
  | zero =>
    intro acc _ wd bit
    simp
  | succ n ih =>
    intro acc hdom wd bit
    rw [List.range_succ, List.foldl_append, List.foldl_cons, List.foldl_nil]
    have hih := ih acc (fun i hi => hdom i (by omega)) wd bit
    have hElen : ((List.range n).foldl (bqStep v t) acc).length = acc.length :=
      bq_fold_length v t _ acc
    rw [exists_lt_succ_iff]
    rw [show bqStep v t ((List.range n).foldl (bqStep v t) acc) n =
      (if v.getD n 0 > t.getD n 0 then
        ((List.range n).foldl (bqStep v t) acc).set (n / 64)
          ((((List.range n).foldl (bqStep v t) acc).getD (n / 64) 0) ||| (1 <<< (n % 64)))
      else (List.range n).foldl (bqStep v t) acc) from rfl]
    by_cases hc : v.getD n 0 > t.getD n 0
    · rw [if_pos hc]
      by_cases hw : n / 64 = wd
      · subst hw
        have hlt : n / 64 < ((List.range n).foldl (bqStep v t) acc).length := by
          rw [hElen]
          exact hdom n (by omega)
        have hset : ((((List.range n).foldl (bqStep v t) acc).set (n / 64)
            ((((List.range n).foldl (bqStep v t) acc).getD (n / 64) 0) |||
              (1 <<< (n % 64)))).getD (n / 64) 0) =
            (((List.range n).foldl (bqStep v t) acc).getD (n / 64) 0) |||
              (1 <<< (n % 64)) := by
          rw [List.getD_eq_getElem?_getD, List.getElem?_set, if_pos rfl, if_pos hlt]
          rfl
        rw [hset, Nat.shiftLeft_eq, one_mul, Nat.testBit_lor, Nat.testBit_two_pow,
          Bool.or_eq_true, decide_eq_true_eq, hih]
        constructor
        · rintro ((h | h) | h)
          · exact Or.inl h
          · exact Or.inr (Or.inl h)
          · exact Or.inr (Or.inr ⟨rfl, h, hc⟩)
        · rintro (h | (h | ⟨_, hb, _⟩))
          · exact Or.inl (Or.inl h)
          · exact Or.inl (Or.inr h)
          · exact Or.inr hb
      · have hset : ((((List.range n).foldl (bqStep v t) acc).set (n / 64)
            ((((List.range n).foldl (bqStep v t) acc).getD (n / 64) 0) |||
              (1 <<< (n % 64)))).getD wd 0) =
            (((List.range n).foldl (bqStep v t) acc).getD wd 0) := by
          rw [List.getD_eq_getElem?_getD, List.getElem?_set, if_neg hw,
            ← List.getD_eq_getElem?_getD]
        rw [hset, hih]
        constructor
        · rintro (h | h)
          · exact Or.inl h
          · exact Or.inr (Or.inl h)
        · rintro (h | (h | ⟨hw2, _, _⟩))
          · exact Or.inl h
          · exact Or.inr h
          · exact absurd hw2 hw
    · rw [if_neg hc, hih]
      constructor
      · rintro (h | h)
        · exact Or.inl h
        · exact Or.inr (Or.inl h)
      · rintro (h | (h | ⟨_, _, hc2⟩))
        · exact Or.inl h
        · exact Or.inr h
        · exact absurd hc2 hc

lemma addLoop_length (v : List ℚ) : ∀ (n : ℕ) (s : List ℚ),
    ((List.range n).foldl (fun acc i => acc.set i (acc.getD i 0 + v.getD i 0)) s).length =
      s.length := by
  intro n
  induction n with
  | zero => intro s; rfl
  | succ n ih =>
    intro s
    rw [List.range_succ, List.foldl_append, List.foldl_cons, List.foldl_nil,
      List.length_set, ih]

lemma addLoop_getD (v : List ℚ) : ∀ (n : ℕ) (s : List ℚ), n ≤ s.length → ∀ j : ℕ,
    ((List.range n).foldl (fun acc i => acc.set i (acc.getD i 0 + v.getD i 0)) s).getD j 0 =
      if j < n then s.getD j 0 + v.getD j 0 else s.getD j 0 := by
  intro n
  induction n with
  | zero =>
    intro s _ j
    simp
  | succ n ih =>
    intro s hn j
    rw [List.range_succ, List.foldl_append, List.foldl_cons, List.foldl_nil]
    have hlen : ((List.range n).foldl
        (fun acc i => acc.set i (acc.getD i 0 + v.getD i 0)) s).length = s.length :=
      addLoop_length v n s
    by_cases hj : n = j
    · subst hj
      rw [List.getD_eq_getElem?_getD, List.getElem?_set, if_pos rfl,
        if_pos (by rw [hlen]; omega)]
      show ((List.range n).foldl (fun acc i => acc.set i (acc.getD i 0 + v.getD i 0)) s).getD
          n 0 + v.getD n 0 = _
      rw [ih s (by omega) n, if_neg (lt_irrefl n), if_pos (Nat.lt_succ_self n)]
    · rw [List.getD_eq_getElem?_getD, List.getElem?_set, if_neg hj,
        ← List.getD_eq_getElem?_getD, ih s (by omega) j]
      by_cases hjn : j < n
      · rw [if_pos hjn, if_pos (by omega)]
      · rw [if_neg hjn, if_neg (by omega)]

lemma addInto_length (s v : List ℚ) : (addInto s v).length = s.length :=
  addLoop_length v v.length s

lemma addInto_getD (s v : List ℚ) (h : v.length ≤ s.length) (j : ℕ) :
    (addInto s v).getD j 0 =
      if j < v.length then s.getD j 0 + v.getD j 0 else s.getD j 0 :=
  addLoop_getD v v.length s h j

lemma sumLoop_spec (D : ℕ) : ∀ (pts : List BQPoint) (l : List ℚ), l.length = D →
    (∀ p ∈ pts, p.vector.length = D) →
    ∃ l', pts.foldl bqSumStep (some l) = some l' ∧ l'.length = D ∧
      ∀ j, j < D →
        l'.getD j 0 = l.getD j 0 + ((pts.map (fun p => p.vector.getD j 0)).sum) := by
  intro pts
  induction pts with
  | nil =>
    intro l hl _
    exact ⟨l, rfl, hl, fun j _ => by simp⟩
  | cons p rest ih =>
    intro l hl hall
    have hp : p.vector.length = D := hall p (List.mem_cons_self p rest)
    rw [List.foldl_cons, show bqSumStep (some l) p = some (addInto l p.vector) from rfl]
    have hlen2 : (addInto l p.vector).length = D := by rw [addInto_length, hl]
    obtain ⟨l', h1, h2, h3⟩ :=
      ih (addInto l p.vector) hlen2 (fun q hq => hall q (List.mem_cons_of_mem p hq))
    refine ⟨l', h1, h2, ?_⟩
    intro j hj
    rw [h3 j hj, addInto_getD l p.vector (by omega) j, if_pos (by omega)]
    simp only [List.map_cons, List.sum_cons]
    ring

lemma foldl_bqSumStep_some : ∀ (pts : List BQPoint) (l : List ℚ),
    ∃ l', pts.foldl bqSumStep (some l) = some l' := by
  intro pts
  induction pts with
  | nil => intro l; exact ⟨l, rfl⟩
  | cons p rest ih =>
    intro l
    rw [List.foldl_cons, show bqSumStep (some l) p = some (addInto l p.vector) from rfl]
    exact ih (addInto l p.vector)

lemma getD_map_div (S : List ℚ) (c : ℚ) {i : ℕ} (h : i < S.length) :
    (S.map (fun x => x / c)).getD i 0 = S.getD i 0 / c := by
  rw [List.getD_eq_getElem?_getD, List.getElem?_map, List.getElem?_eq_getElem h,
    List.getD_eq_getElem?_getD, List.getElem?_eq_getElem h]
  rfl

lemma bq_fit_gate (bq : BinaryQuantizer)
    (h : bq.threshold ≠ none ∨ bq.points.length < bq.triggerThreshold) :
    bq.fit = bq := by
  unfold BinaryQuantizer.fit
  rw [if_pos h]

lemma bq_fit_eq (bq : BinaryQuantizer)
    (h : ¬(bq.threshold ≠ none ∨ bq.points.length < bq.triggerThreshold)) :
    bq.fit = { bq with
      threshold := Option.map (fun l => l.map (fun x => x / (bq.points.length : ℚ)))
        (bq.points.foldl bqSumStep none)
      points := bq.points.map (fun p =>
        { p with
          binaryVector := bqEncode
            (Option.map (fun l => l.map (fun x => x / (bq.points.length : ℚ)))
              (bq.points.foldl bqSumStep none)) p.vector
          isDirty := true }) } := by
  unfold BinaryQuantizer.fit
  rw [if_neg h]

lemma bq_fit_run (bq : BinaryQuantizer) (D : ℕ)
    (hthr : bq.threshold = none)
    (htrig : bq.triggerThreshold ≤ bq.points.length)
    (hne : bq.points ≠ [])
    (hD : ∀ p ∈ bq.points, p.vector.length = D) :
    ∃ T, bq.fit.threshold = some T ∧ T.length = D ∧
      (∀ i, i < D → T.getD i 0 =
        ((bq.points.map (fun p => p.vector.getD i 0)).sum) / (bq.points.length : ℚ)) ∧
      bq.fit.points = bq.points.map (fun p =>
        { p with binaryVector := bqEncode (some T) p.vector, isDirty := true }) := by
  obtain ⟨p0, rest, hpts⟩ := List.exists_cons_of_ne_nil hne
  have hp0 : p0.vector.length = D := hD p0 (by rw [hpts]; exact List.mem_cons_self p0 rest)
  have hbase : (addInto (List.replicate p0.vector.length 0) p0.vector).length = D := by
    rw [addInto_length, List.length_replicate, hp0]
  obtain ⟨S, hS1, hS2, hS3⟩ := sumLoop_spec D rest
    (addInto (List.replicate p0.vector.length 0) p0.vector) hbase
    (fun q hq => hD q (by rw [hpts]; exact List.mem_cons_of_mem p0 hq))
  have hsum : bq.points.foldl bqSumStep none = some S := by
    rw [hpts, List.foldl_cons,
      show bqSumStep none p0 =
        some (addInto (List.replicate p0.vector.length 0) p0.vector) from rfl]
    exact hS1
  have heq := bq_fit_eq bq
    (not_or.mpr ⟨not_ne_iff.mpr hthr, Nat.not_lt.mpr htrig⟩)
  rw [hsum, Option.map_some'] at heq
  refine ⟨S.map (fun x => x / (bq.points.length : ℚ)), by rw [heq], by
    rw [List.length_map, hS2], ?_, by rw [heq]⟩
  intro i hi
  rw [getD_map_div S _ (by omega)]
  rw [hS3 i hi, addInto_getD _ _ (by rw [List.length_replicate]) i, if_pos (by omega),
    getD_replicate_self]
  rw [hpts]
  simp only [List.map_cons, List.sum_cons, List.length_cons]
  ring_nf

lemma pq_fit_gate (pq : ProductQuantizer) (points : List PQPoint)
    (km : ℕ → KMeansResult)
    (h : pq.flatCentroids ≠ [] ∨ points.length < pq.params.triggerThreshold) :
    pq.fit points km = (pq, points) := by
  unfold ProductQuantizer.fit
  rcases h with h | h
  · rw [if_pos h]
  · by_cases h2 : pq.flatCentroids ≠ []
    · rw [if_pos h2]
    · rw [if_neg h2, if_pos h]

lemma pq_fit_run (pq : ProductQuantizer) (points : List PQPoint)
    (km : ℕ → KMeansResult) (hpre : pq.flatCentroids = [])
    (htrig : pq.params.triggerThreshold ≤ points.length) :
    pq.fit points km =
      ({ pq with
        flatCentroids := (List.range (pq.params.numSubVectors * pq.params.numCentroids *
            pq.subVectorLen)).map (fun idx =>
          ((km (idx / (pq.params.numCentroids * pq.subVectorLen))).centroids
            ((idx / pq.subVectorLen) % pq.params.numCentroids)).getD
              (idx % pq.subVectorLen) 0)
        centroidDists := (List.range (pq.params.numSubVectors * pq.params.numCentroids *
            pq.params.numCentroids)).map (fun idx =>
          pq.distFn
            ((km (idx / (pq.params.numCentroids * pq.params.numCentroids))).centroids
              (idx / pq.params.numCentroids % pq.params.numCentroids))
            ((km (idx / (pq.params.numCentroids * pq.params.numCentroids))).centroids
              (idx % pq.params.numCentroids))) },
       List.mapIdx (fun j p =>
        { p with
          centroidIds := (List.range pq.params.numSubVectors).map
            (fun i => (km i).labels.getD j 0)
          isDirty := true }) points) := by
  unfold ProductQuantizer.fit
  rw [if_neg (not_not_intro hpre), if_neg (Nat.not_lt.mpr htrig)]

end Helpers

/-- C1: for a product quantizer after a successful Fit (flat_centroids
non-empty), DistanceFromFloat(x) precomputes a lookup table L of length
M*K with L[m*K + c] = dist(x's m-th subvector, centroid[m, c]), and the
returned closure applied to any PQ point y returns exactly the sum over
m in [0, M) of L[m*K + y.centroid_ids[m]]. -/
theorem pq_distanceFromFloat_after_fit (pq : ProductQuantizer) (x : List ℚ)
    (hfit : pq.flatCentroids ≠ []) :
    (pq.distTable x).length = pq.params.numSubVectors * pq.params.numCentroids ∧
    (∀ m c : ℕ, m < pq.params.numSubVectors → c < pq.params.numCentroids →
      (pq.distTable x).getD (m * pq.params.numCentroids + c) 0 =
        pq.distFn (subVecAt x pq.subVectorLen m) (pq.centroidAt m c)) ∧
    (∀ p : PQPoint,
      pq.distanceFromFloat x (.pq p) =
        ((List.range pq.params.numSubVectors).map (fun m =>
          (pq.distTable x).getD
            (m * pq.params.numCentroids + p.centroidIds.getD m 0) 0)).sum) := by
  refine ⟨by simp [ProductQuantizer.distTable], fun m c hm hc => distTable_getD pq x hm hc, ?_⟩
  intro p
  unfold ProductQuantizer.distanceFromFloat
  rw [if_neg hfit]
  show (List.range pq.params.numSubVectors).foldl
      (fun dist i => dist +
        (pq.distTable x).getD (i * pq.params.numCentroids + p.centroidIds.getD i 0) 0)
      0 = _
  rw [foldl_add_eq_sum, zero_add]

/-- Witness for C1 at the concrete fitted quantizer. -/
theorem pq_distanceFromFloat_after_fit_witness :
    pqFitted.flatCentroids ≠ [] ∧
    pqFitted.distanceFromFloat [1, 2] (.pq ⟨9, [1, 2], [0, 1], false⟩) =
      ((List.range pqFitted.params.numSubVectors).map (fun m =>
        (pqFitted.distTable [1, 2]).getD
          (m * pqFitted.params.numCentroids +
            (List.getD [0, 1] m 0)) 0)).sum :=
  ⟨by decide, (pq_distanceFromFloat_after_fit pqFitted [1, 2] (by decide)).2.2
    ⟨9, [1, 2], [0, 1], false⟩⟩

/-- C5 counterexample: after a successful Fit of a dot-configured
quantizer whose k-means centroids are [1] and [-1], the off-diagonal
entry centroid_dists[0, 0, 1] = dot([1], [-1]) is negative, refuting the
claim's unconditional non-negativity. -/
theorem pq_centroid_dists_dot_counterexample :
    ((pqDot.fit [] kmDot).1.centroidDists).getD (pqDot.centroidDistIdx 0 0 1) 0 < 0 := by
  rw [fit_centroidDists_getD pqDot [] kmDot rfl (by decide) (by decide) (by decide)
    (by decide)]
  norm_num [pqDot, kmDot, dotDist]

/-- C5 amended: after a successful PQ Fit, for every subvector index m
and all centroid indices a, b in [0, K), centroid_dists[m, a, b] equals
centroid_dists[m, b, a] for either supported kernel (euclidean or dot);
when the Euclidean kernel is configured the entries are additionally
non-negative and the diagonal centroid_dists[m, a, a] is 0 (with the dot
kernel entries can be negative). -/
theorem pq_centroid_dists_amended (pq : ProductQuantizer) (points : List PQPoint)
    (km : ℕ → KMeansResult)
    (hker : pq.distFn = euclideanDist ∨ pq.distFn = dotDist)
    (hpre : pq.flatCentroids = [])
    (htrig : pq.params.triggerThreshold ≤ points.length)
    (m a b : ℕ) (hm : m < pq.params.numSubVectors)
    (ha : a < pq.params.numCentroids) (hb : b < pq.params.numCentroids) :
    (((pq.fit points km).1.centroidDists).getD (pq.centroidDistIdx m a b) 0 =
      ((pq.fit points km).1.centroidDists).getD (pq.centroidDistIdx m b a) 0) ∧
    (pq.distFn = euclideanDist →
      0 ≤ ((pq.fit points km).1.centroidDists).getD (pq.centroidDistIdx m a b) 0 ∧
      ((pq.fit points km).1.centroidDists).getD (pq.centroidDistIdx m a a) 0 = 0) := by
  rw [fit_centroidDists_getD pq points km hpre htrig hm ha hb,
    fit_centroidDists_getD pq points km hpre htrig hm hb ha,
    fit_centroidDists_getD pq points km hpre htrig hm ha ha]
  constructor
  · rcases hker with h | h <;> rw [h]
    · exact euclideanDist_comm _ _
    · exact dotDist_comm _ _
  · intro heuc
    rw [heuc]
    exact ⟨euclideanDist_nonneg _ _, euclideanDist_self _⟩

/-- Witness for the amended C5 at a concrete unfitted Euclidean
quantizer, one point and a constant k-means result. -/
theorem pq_centroid_dists_amended_witness :
    (pqUnfitted.distFn = euclideanDist ∨ pqUnfitted.distFn = dotDist) ∧
    ((((pqUnfitted.fit [⟨1, [3], [], false⟩] (fun _ => ⟨fun c => [(c : ℚ)], [0]⟩)).1.centroidDists).getD
        (pqUnfitted.centroidDistIdx 0 0 1) 0 =
      ((pqUnfitted.fit [⟨1, [3], [], false⟩] (fun _ => ⟨fun c => [(c : ℚ)], [0]⟩)).1.centroidDists).getD
        (pqUnfitted.centroidDistIdx 0 1 0) 0) ∧
      (pqUnfitted.distFn = euclideanDist →
        0 ≤ ((pqUnfitted.fit [⟨1, [3], [], false⟩] (fun _ => ⟨fun c => [(c : ℚ)], [0]⟩)).1.centroidDists).getD
          (pqUnfitted.centroidDistIdx 0 0 1) 0 ∧
        ((pqUnfitted.fit [⟨1, [3], [], false⟩] (fun _ => ⟨fun c => [(c : ℚ)], [0]⟩)).1.centroidDists).getD
          (pqUnfitted.centroidDistIdx 0 0 0) 0 = 0)) :=
  ⟨Or.inl rfl,
    pq_centroid_dists_amended pqUnfitted [⟨1, [3], [], false⟩]
      (fun _ => ⟨fun c => [(c : ℚ)], [0]⟩) (Or.inl rfl) rfl (by decide) 0 0 1
      (by decide) (by decide) (by decide)⟩

/-- C2: for every input vector, PQ encode after a successful fit returns
a code of length M whose every entry is in [0, K); each entry m is the
index of the centroid minimizing the Euclidean distance to the m-th
subvector, ties broken by the lowest centroid index (stated for the
Euclidean-configured quantizer, with the computed distances below the
MaxFloat32 sentinel the loop starts from); before fit (no trained
centroids) encode returns an empty code. -/
theorem pq_encode_spec (pq : ProductQuantizer) (v : List ℚ)
    (heuc : pq.distFn = euclideanDist) (hfit : pq.flatCentroids ≠ [])
    (hK : 0 < pq.params.numCentroids) (hK256 : pq.params.numCentroids ≤ 256)
    (hb : ∀ m, m < pq.params.numSubVectors → ∀ j, j < pq.params.numCentroids →
      euclideanDist (subVecAt v pq.subVectorLen m) (pq.centroidAt m j) < maxFloat32) :
    (pq.encode v).length = pq.params.numSubVectors ∧
    (∀ m, m < pq.params.numSubVectors →
      (pq.encode v).getD m 0 < pq.params.numCentroids) ∧
    (∀ m, m < pq.params.numSubVectors →
      (∀ j, j < pq.params.numCentroids →
        euclideanDist (subVecAt v pq.subVectorLen m)
            (pq.centroidAt m ((pq.encode v).getD m 0)) ≤
          euclideanDist (subVecAt v pq.subVectorLen m) (pq.centroidAt m j)) ∧
      (∀ j, j < (pq.encode v).getD m 0 →
        euclideanDist (subVecAt v pq.subVectorLen m)
            (pq.centroidAt m ((pq.encode v).getD m 0)) <
          euclideanDist (subVecAt v pq.subVectorLen m) (pq.centroidAt m j))) ∧
    (∀ pq₀ : ProductQuantizer, pq₀.flatCentroids = [] → pq₀.encode v = []) := by
  have hM : ∀ m, m < pq.params.numSubVectors →
      (pq.encode v).getD m 0 =
        (pqArgmin (fun j => euclideanDist (subVecAt v pq.subVectorLen m) (pq.centroidAt m j))
          pq.params.numCentroids).2 := by
    intro m hm
    unfold ProductQuantizer.encode
    rw [if_neg hfit, getD_map_range _ hm, heuc]
    have hspec := pqArgmin_spec
      (fun j => euclideanDist (subVecAt v pq.subVectorLen m) (pq.centroidAt m j))
      pq.params.numCentroids hK (fun j hj => hb m hm j hj)
    exact Nat.mod_eq_of_lt (lt_of_lt_of_le hspec.1 hK256)
  refine ⟨?_, ?_, ?_, ?_⟩
  · unfold ProductQuantizer.encode
    rw [if_neg hfit]
    simp
  · intro m hm
    rw [hM m hm]
    exact (pqArgmin_spec _ _ hK (fun j hj => hb m hm j hj)).1
  · intro m hm
    have hspec := pqArgmin_spec
      (fun j => euclideanDist (subVecAt v pq.subVectorLen m) (pq.centroidAt m j))
      pq.params.numCentroids hK (fun j hj => hb m hm j hj)
    obtain ⟨h1, h2, h3, h4⟩ := hspec
    rw [hM m hm]
    constructor
    · intro j hj
      have hle := h3 j hj
      rw [h2] at hle
      exact hle
    · intro j hj
      have hlt := h4 j hj
      rw [h2] at hlt
      exact hlt
  · intro pq₀ h
    unfold ProductQuantizer.encode
    rw [if_pos h]

/-- Witness for C2 at the concrete fitted quantizer and vector [1, 2]. -/
theorem pq_encode_spec_witness :
    pqFitted.flatCentroids ≠ [] ∧
    (pqFitted.encode [1, 2]).length = pqFitted.params.numSubVectors ∧
    (∀ m, m < pqFitted.params.numSubVectors →
      (pqFitted.encode [1, 2]).getD m 0 < pqFitted.params.numCentroids) :=
  ⟨by decide,
    (pq_encode_spec pqFitted [1, 2] rfl (by decide) (by decide) (by decide) (by
      intro m hm j hj
      have hm2 : m < 2 := hm
      have hj2 : j < 2 := hj
      clear hm hj
      interval_cases m <;> interval_cases j <;>
        norm_num [pqFitted, euclideanDist, subVecAt, ProductQuantizer.centroidAt,
          ProductQuantizer.flatCentroidStart, maxFloat32])).1,
    (pq_encode_spec pqFitted [1, 2] rfl (by decide) (by decide) (by decide) (by
      intro m hm j hj
      have hm2 : m < 2 := hm
      have hj2 : j < 2 := hj
      clear hm hj
      interval_cases m <;> interval_cases j <;>
        norm_num [pqFitted, euclideanDist, subVecAt, ProductQuantizer.centroidAt,
          ProductQuantizer.flatCentroidStart, maxFloat32])).2.1⟩

/-- C7 counterexample: before fit, a PQ point whose raw vector is absent
(empty) still passes the type assertion, so the closure applies the float
kernel to the empty vector and returns 0 here, not the MaxFloat32
sentinel standing for +infinity as the claim states. -/
theorem pq_prefit_missing_vector_counterexample :
    pqUnfitted.distanceFromFloat [1] (.pq ⟨7, [], [], false⟩) = 0 ∧
    (0 : ℚ) ≠ maxFloat32 := by
  constructor
  · rfl
  · norm_num [maxFloat32]

/-- C7 amended: before PQ Fit, the closure returned by
DistanceFromFloat(x) applied to any PQ point y returns exactly
float_kernel(x, y.vector), whether or not the raw vector is present (a
missing raw vector is not detected); only a point of a different
concrete type yields the MaxFloat32 (+infinity stand-in) with a warning
log. -/
theorem pq_distanceFromFloat_prefit_amended (pq : ProductQuantizer) (x : List ℚ)
    (hpre : pq.flatCentroids = []) :
    (∀ p : PQPoint, pq.distanceFromFloat x (.pq p) = pq.distFn x p.vector) ∧
    (∀ q : BQPoint, pq.distanceFromFloat x (.bq q) = maxFloat32) := by
  unfold ProductQuantizer.distanceFromFloat
  rw [if_pos hpre]
  exact ⟨fun p => rfl, fun q => rfl⟩

/-- Witness for the amended C7. -/
theorem pq_distanceFromFloat_prefit_amended_witness :
    pqUnfitted.flatCentroids = [] ∧
    pqUnfitted.distanceFromFloat [1] (.pq ⟨3, [4], [], false⟩) =
      pqUnfitted.distFn [1] [4] :=
  ⟨rfl, (pq_distanceFromFloat_prefit_amended pqUnfitted [1] rfl).1 ⟨3, [4], [], false⟩⟩

/-- C8 counterexample: the constructor does not reject zero dimensions:
with D = 0, M = 1, K = 2 and the euclidean name it succeeds, while the
claim says it must fail with InvalidGeometry. -/
theorem pq_constructor_zero_dim_counterexample :
    (newProductQuantizer ("euclidean") ⟨1, 2, 0⟩ 0 [] []).isOk = true := by
  rfl

/-- C8 amended: with a positive subvector count, the constructor fails
with InvalidGeometry exactly when D is not divisible by M, or the
distance name is supported and K > 256; it fails with
UnsupportedDistance exactly when D is divisible by M and the name is not
one of euclidean, cosine, dot; otherwise it succeeds.  Zero dimensions
are not rejected. -/
theorem pq_constructor_errors_amended (name : String) (params : PQParams)
    (vectorLen : ℕ) (sd sf : List ℚ) (_hM : 0 < params.numSubVectors) :
    (newProductQuantizer name params vectorLen sd sf = .error .invalidGeometry ↔
      vectorLen % params.numSubVectors ≠ 0 ∨
      ((name = "euclidean" ∨ name = "cosine" ∨ name = "dot") ∧
        vectorLen % params.numSubVectors = 0 ∧ 256 < params.numCentroids)) ∧
    (newProductQuantizer name params vectorLen sd sf = .error .unsupportedDistance ↔
      vectorLen % params.numSubVectors = 0 ∧
      ¬(name = "euclidean" ∨ name = "cosine" ∨ name = "dot")) ∧
    ((newProductQuantizer name params vectorLen sd sf).isOk = true ↔
      vectorLen % params.numSubVectors = 0 ∧
      (name = "euclidean" ∨ name = "cosine" ∨ name = "dot") ∧
      params.numCentroids ≤ 256) := by
  unfold newProductQuantizer
  by_cases h1 : vectorLen % params.numSubVectors ≠ 0
  · rw [if_pos h1]
    refine ⟨by simp [h1], by simp [h1], by simp [Except.isOk, Except.toBool, h1]⟩
  · rw [if_neg h1]
    have h1' : vectorLen % params.numSubVectors = 0 := not_ne_iff.mp h1
    by_cases h2 : name = "euclidean" ∨ name = "cosine" ∨ name = "dot"
    · rw [if_neg (by tauto)]
      by_cases h3 : 256 < params.numCentroids
      · rw [if_pos h3]
        refine ⟨?_, ?_, ?_⟩
        · exact ⟨fun _ => Or.inr ⟨h2, h1', h3⟩, fun _ => rfl⟩
        · constructor
          · intro hx
            exact absurd hx (by simp)
          · intro hx
            exact absurd h2 hx.2
        · constructor
          · intro hx
            exact absurd hx (by simp [Except.isOk, Except.toBool])
          · intro hx
            exact absurd hx.2.2 (by omega)
      · rw [if_neg h3]
        refine ⟨?_, ?_, ?_⟩
        · constructor
          · intro hx
            exact absurd hx (by simp)
          · intro hx
            rcases hx with hx | hx
            · exact absurd h1' hx
            · exact absurd hx.2.2 h3
        · constructor
          · intro hx
            exact absurd hx (by simp)
          · intro hx
            exact absurd h2 hx.2
        · exact ⟨fun _ => ⟨h1', h2, by omega⟩, fun _ => rfl⟩
    · rw [if_pos (by tauto)]
      refine ⟨?_, ?_, ?_⟩
      · constructor
        · intro hx
          exact absurd hx (by simp)
        · intro hx
          rcases hx with hx | hx
          · exact absurd h1' hx
          · exact absurd hx.1 h2
      · exact ⟨fun _ => ⟨h1', h2⟩, fun _ => rfl⟩
      · constructor
        · intro hx
          exact absurd hx (by simp [Except.isOk, Except.toBool])
        · intro hx
          exact absurd hx.2.1 h2

/-- Witness for the amended C8: D = 10, M = 3 is rejected as bad
geometry. -/
theorem pq_constructor_errors_amended_witness :
    newProductQuantizer ("euclidean") ⟨3, 2, 0⟩ 10 [] [] = .error .invalidGeometry :=
  (pq_constructor_errors_amended ("euclidean") ⟨3, 2, 0⟩ 10 [] [] (by decide)).1.mpr
    (by decide)

/-- C9: a product quantizer constructed with distance name cosine equals
one constructed with distance name euclidean, so encoding, fitting and
both distance closures coincide on all inputs. -/
theorem pq_cosine_euclidean_equiv (params : PQParams) (vectorLen : ℕ)
    (sd sf : List ℚ) :
    newProductQuantizer ("cosine") params vectorLen sd sf =
      newProductQuantizer ("euclidean") params vectorLen sd sf ∧
    (∀ v, (newProductQuantizer ("cosine") params vectorLen sd sf).map
        (fun q => q.encode v) =
      (newProductQuantizer ("euclidean") params vectorLen sd sf).map
        (fun q => q.encode v)) ∧
    (∀ points km, (newProductQuantizer ("cosine") params vectorLen sd sf).map
        (fun q => q.fit points km) =
      (newProductQuantizer ("euclidean") params vectorLen sd sf).map
        (fun q => q.fit points km)) ∧
    (∀ x y, (newProductQuantizer ("cosine") params vectorLen sd sf).map
        (fun q => q.distanceFromFloat x y) =
      (newProductQuantizer ("euclidean") params vectorLen sd sf).map
        (fun q => q.distanceFromFloat x y)) ∧
    (∀ x y, (newProductQuantizer ("cosine") params vectorLen sd sf).map
        (fun q => q.distanceFromPoint x y) =
      (newProductQuantizer ("euclidean") params vectorLen sd sf).map
        (fun q => q.distanceFromPoint x y)) := by
  have h : newProductQuantizer ("cosine") params vectorLen sd sf =
      newProductQuantizer ("euclidean") params vectorLen sd sf := rfl
  exact ⟨h, fun v => by rw [h], fun points km => by rw [h],
    fun x y => by rw [h], fun x y => by rw [h]⟩

/-- C10: for every BQ point whose binary vector is non-empty, WriteTo
performs exactly the single 'q' put and never touches the 'v' key; the
'v' key is written exactly when the point has no binary vector and a
non-empty raw vector. -/
theorem bq_writeTo_frame (p : BQPoint) :
    ((optWords p.binaryVector).length ≠ 0 →
      p.writeTo = [(nodeKey p.id 'q', .words (optWords p.binaryVector))] ∧
      ∀ op ∈ p.writeTo, op.1.1 ≠ 'v') ∧
    ((∃ val, (nodeKey p.id 'v', val) ∈ p.writeTo) ↔
      (optWords p.binaryVector).length = 0 ∧ p.vector.length ≠ 0) := by
  constructor
  · intro h
    unfold BQPoint.writeTo
    rw [if_pos h]
    refine ⟨rfl, ?_⟩
    intro op hop
    simp only [List.mem_singleton] at hop
    subst hop
    simp [nodeKey]
  · unfold BQPoint.writeTo
    by_cases h1 : (optWords p.binaryVector).length ≠ 0
    · rw [if_pos h1]
      simp [nodeKey, h1]
    · rw [if_neg h1]
      by_cases h2 : p.vector.length ≠ 0
      · rw [if_pos h2]
        have h1' : (optWords p.binaryVector).length = 0 := not_ne_iff.mp h1
        simp [nodeKey, h1', h2]
      · rw [if_neg h2]
        simp [nodeKey, h2]

/-- Witness for C10 at an encoded point: only the 'q' key is written. -/
theorem bq_writeTo_frame_witness :
    BQPoint.writeTo ⟨5, [1], some [3], false⟩ =
      [(nodeKey 5 'q', .words [3])] :=
  ((bq_writeTo_frame ⟨5, [1], some [3], false⟩).1 (by decide)).1

/-- C3: for every vector of length D and a set threshold of length D, BQ
encode returns exactly ceil(D/64) words where, for each i < D, bit
(i mod 64) of word (i div 64) is set iff vector[i] > threshold[i]
(little-endian bit-within-word packing); when no threshold is set, encode
returns nil. -/
theorem bq_encode_spec (t v : List ℚ) (_hlen : t.length = v.length) :
    (∃ w, bqEncode (some t) v = some w ∧
      w.length = (v.length + 63) / 64 ∧
      ∀ i, i < v.length →
        ((w.getD (i / 64) 0).testBit (i % 64) = true ↔ v.getD i 0 > t.getD i 0)) ∧
    bqEncode none v = none := by
  constructor
  · refine ⟨(List.range v.length).foldl (bqStep v t)
      (List.replicate (v.length / 64 + (if v.length % 64 = 0 then 0 else 1)) 0), rfl, ?_, ?_⟩
    · rw [bq_fold_length, List.length_replicate]
      by_cases h : v.length % 64 = 0
      · rw [if_pos h]
        omega
      · rw [if_neg h]
        omega
    · intro i hi
      have hdom : ∀ j, j < v.length →
          j / 64 < (List.replicate (v.length / 64 + (if v.length % 64 = 0 then 0 else 1))
            (0 : ℕ)).length := by
        intro j hj
        rw [List.length_replicate]
        by_cases h : v.length % 64 = 0
        · rw [if_pos h]
          omega
        · rw [if_neg h]
          omega
      rw [bq_fold_testBit v t v.length _ hdom (i / 64) (i % 64)]
      rw [getD_replicate_self, Nat.zero_testBit]
      constructor
      · rintro (h | ⟨i2, hi2, hw2, hb2, hc2⟩)
        · exact absurd h (by simp)
        · have : i2 = i := by omega
          subst this
          exact hc2
      · intro h
        exact Or.inr ⟨i, hi, rfl, rfl, h⟩
  · rfl

/-- Witness for C3 at threshold [0, 0] and vector [1, 0]. -/
theorem bq_encode_spec_witness :
    ([(0 : ℚ), 0]).length = ([(1 : ℚ), 0]).length ∧
    ((∃ w, bqEncode (some [0, 0]) [1, 0] = some w ∧
        w.length = (([(1 : ℚ), 0]).length + 63) / 64 ∧
        ∀ i, i < ([(1 : ℚ), 0]).length →
          ((w.getD (i / 64) 0).testBit (i % 64) = true ↔
            ([(1 : ℚ), 0]).getD i 0 > ([(0 : ℚ), 0]).getD i 0)) ∧
      bqEncode none [1, 0] = none) :=
  ⟨rfl, bq_encode_spec [0, 0] [1, 0] rfl⟩

/-- C4: when BQ Fit runs (threshold unset and Count() at least the
trigger), it sets threshold[i] to the mean of the i-th coordinate over
all stored points (sum divided by point count), then re-encodes every
point's binary_vector from its raw vector and marks every point dirty. -/
theorem bq_fit_spec (bq : BinaryQuantizer) (D : ℕ)
    (hthr : bq.threshold = none)
    (htrig : bq.triggerThreshold ≤ bq.points.length)
    (hne : bq.points ≠ [])
    (hD : ∀ p ∈ bq.points, p.vector.length = D) :
    ∃ T, bq.fit.threshold = some T ∧ T.length = D ∧
      (∀ i, i < D → T.getD i 0 =
        ((bq.points.map (fun p => p.vector.getD i 0)).sum) / (bq.points.length : ℚ)) ∧
      bq.fit.points = bq.points.map (fun p =>
        { p with binaryVector := bqEncode (some T) p.vector, isDirty := true }) :=
  bq_fit_run bq D hthr htrig hne hD

/-- Witness for C4 at the one-point sample quantizer. -/
theorem bq_fit_spec_witness :
    bqSample.threshold = none ∧
    bqSample.triggerThreshold ≤ bqSample.points.length ∧
    bqSample.points ≠ [] ∧
    (∀ p ∈ bqSample.points, p.vector.length = 1) ∧
    (∃ T, bqSample.fit.threshold = some T ∧ T.length = 1 ∧
      (∀ i, i < 1 → T.getD i 0 =
        ((bqSample.points.map (fun p => p.vector.getD i 0)).sum) /
          (bqSample.points.length : ℚ)) ∧
      bqSample.fit.points = bqSample.points.map (fun p =>
        { p with binaryVector := bqEncode (some T) p.vector, isDirty := true })) :=
  ⟨rfl, by decide, by simp [bqSample],
    by
      intro p hp
      simp only [bqSample, List.mem_singleton] at hp
      subst hp
      rfl,
    bq_fit_spec bqSample 1 rfl (by decide) (by simp [bqSample])
      (by
        intro p hp
        simp only [bqSample, List.mem_singleton] at hp
        subst hp
        rfl)⟩

/-- C6: Fit is idempotent and gated: if the centroid tables (PQ) or
threshold (BQ) are already populated, or the cache count is below the
trigger threshold, Fit returns success without modifying tables,
thresholds, or any point's code; a second call to Fit after a successful
first call changes nothing. -/
theorem fit_gated_idempotent :
    (∀ (pq : ProductQuantizer) (points : List PQPoint) (km : ℕ → KMeansResult),
      pq.flatCentroids ≠ [] ∨ points.length < pq.params.triggerThreshold →
        pq.fit points km = (pq, points)) ∧
    (∀ bq : BinaryQuantizer,
      bq.threshold ≠ none ∨ bq.points.length < bq.triggerThreshold → bq.fit = bq) ∧
    (∀ (pq : ProductQuantizer) (points : List PQPoint) (km km₂ : ℕ → KMeansResult),
      pq.flatCentroids = [] → pq.params.triggerThreshold ≤ points.length →
      0 < pq.params.numSubVectors * pq.params.numCentroids * pq.subVectorLen →
      (pq.fit points km).1.fit (pq.fit points km).2 km₂ = pq.fit points km) ∧
    (∀ bq : BinaryQuantizer, bq.threshold = none →
      bq.triggerThreshold ≤ bq.points.length → bq.points ≠ [] →
      bq.fit.fit = bq.fit) := by
  refine ⟨pq_fit_gate, bq_fit_gate, ?_, ?_⟩
  · intro pq points km km₂ hpre htrig hpos
    rw [pq_fit_run pq points km hpre htrig]
    apply pq_fit_gate
    left
    apply List.ne_nil_of_length_pos
    simpa using hpos
  · intro bq hthr htrig hne
    apply bq_fit_gate
    left
    rw [bq_fit_eq bq (not_or.mpr ⟨not_ne_iff.mpr hthr, Nat.not_lt.mpr htrig⟩)]
    obtain ⟨p0, rest, hpts⟩ := List.exists_cons_of_ne_nil hne
    show Option.map _ (bq.points.foldl bqSumStep none) ≠ none
    rw [hpts, List.foldl_cons,
      show bqSumStep none p0 =
        some (addInto (List.replicate p0.vector.length 0) p0.vector) from rfl]
    obtain ⟨S, hS⟩ :=
      foldl_bqSumStep_some rest (addInto (List.replicate p0.vector.length 0) p0.vector)
    rw [hS, Option.map_some']
    simp

/-- Witness for C6 at concrete fitted and unfitted quantizers. -/
theorem fit_gated_idempotent_witness :
    pqFitted.fit [] kmSample = (pqFitted, []) ∧
    ((pqUnfitted.fit [] kmSample).1.fit (pqUnfitted.fit [] kmSample).2 kmSample =
      pqUnfitted.fit [] kmSample) ∧
    bqSample.fit.fit = bqSample.fit :=
  ⟨fit_gated_idempotent.1 pqFitted [] kmSample (Or.inl (by decide)),
   fit_gated_idempotent.2.2.1 pqUnfitted [] kmSample kmSample rfl (by decide) (by decide),
   fit_gated_idempotent.2.2.2 bqSample rfl (by decide) (by simp [bqSample])⟩

end Vemoo
